import Mathlib

/-!
Verification of the wowprogress guild-scraper pipeline (main.py,
main_cloudscraper.py, combine_guilds.py).

Python strings are modelled as Lean `String`s and every Python string
operation used by the scraper (strip, upper, lower, `in`, split with
maxsplit 1) is implemented explicitly over the underlying character list
`String.data`, so that all definitions compute.  Parsed HTML pages are
modelled structurally: a page is a list of table rows plus the list of
`ratingProgress` spans, a row is a list of anchor elements (in document
order) plus a flag recording whether handling the row raises an
exception, and an anchor carries its class list, the text of a nested
`nobr` node if any, its own text and its `href` attribute.  The network
is an environment function from page offsets (or URLs) to an optional
fetched page, `none` standing for a fetch that failed after all retries.
-/

/-! ## Python string primitives -/

/-- Python `s.strip()`: drop leading and trailing whitespace. -/
def pyStrip (s : String) : String :=
  ⟨((s.data.dropWhile Char.isWhitespace).reverse.dropWhile Char.isWhitespace).reverse⟩

/-- Python `s.upper()` (ASCII, as used for region codes). -/
def pyUpper (s : String) : String :=
  ⟨s.data.map Char.toUpper⟩

/-- Python `s.lower()` (ASCII, as used for language names and sort keys). -/
def pyLower (s : String) : String :=
  ⟨s.data.map Char.toLower⟩

/-- Python `c in s` for a single character `c`. -/
def pyContainsChar (s : String) (c : Char) : Bool :=
  s.data.contains c

/-- Does `pat` occur as a contiguous substring of the character list? -/
def charsContain (pat : List Char) : List Char → Bool
  | [] => pat.isEmpty
  | c :: cs => pat.isPrefixOf (c :: cs) || charsContain pat cs

/-- Python `pat in s` for a substring `pat`. -/
def pyContainsStr (s pat : String) : Bool :=
  charsContain pat.data s.data

/-- Split a character list at the first occurrence of `c`:
(part before, part after).  Only used on lists that contain `c`,
mirroring Python `s.split(c, 1)` guarded by `c in s`. -/
def splitOnceChars (c : Char) : List Char → List Char × List Char
  | [] => ([], [])
  | x :: xs =>
    if x = c then ([], xs)
    else
      let p := splitOnceChars c xs
      (x :: p.1, p.2)

/-- Python `s.split(c, 1)[0]` (guarded by `c in s`). -/
def pySplitOnceBefore (s : String) (c : Char) : String :=
  ⟨(splitOnceChars c s.data).1⟩

/-- Python `s.split(c, 1)[1]` (guarded by `c in s`). -/
def pySplitOnceAfter (s : String) (c : Char) : String :=
  ⟨(splitOnceChars c s.data).2⟩

/-! ## Parsed HTML model -/

/-- An `<a>` element of a table row: its class list, the text of a nested
`<nobr>` node when one exists, its own `get_text()`, and its `href`. -/
structure Anchor where
  classes : List String
  nobrText : Option String
  text : String
  href : Option String
  deriving DecidableEq

/-- A `<span class="ratingProgress">` element: the text of its first `<b>`
child when one exists, and its own full `get_text()`. -/
structure Span where
  bText : Option String
  text : String
  deriving DecidableEq

/-- A `<tr>` element: its anchors in document order; `raises` records that
handling this row raises an exception (bs4 structural failure). -/
structure Row where
  anchors : List Anchor
  raises : Bool
  deriving DecidableEq

/-- A parsed listing page: its `<tr>` rows in document order and its
`ratingProgress` spans in document order. -/
structure Page where
  rows : List Row
  progressSpans : List Span
  deriving DecidableEq

/-- A guild record as built by `extract_guilds_from_page`. -/
structure Guild where
  name : String
  realm : String
  region : String
  url : String
  deriving DecidableEq

/-! ## Row Extractor (main.py `extract_guilds_from_page`) -/

/-- `row.find('a', class_=lambda x: x and 'guild' in x)`: the first anchor
one of whose classes contains the substring "guild". -/
def find_guild_link (row : Row) : Option Anchor :=
  row.anchors.find? (fun a => a.classes.any (fun c => pyContainsStr c "guild"))

/-- `row.find('a', class_='realm')`: the first anchor with class "realm". -/
def find_realm_link (row : Row) : Option Anchor :=
  row.anchors.find? (fun a => a.classes.contains "realm")

/-- The body of the extraction loop for one row: `some` guild record if the
row is kept, `none` if it is skipped (missing guild link, missing nobr,
missing realm link, no hyphen, non-EU region, or a raised exception). -/
def parse_row (row : Row) : Option Guild :=
  if row.raises then none
  else
    match find_guild_link row with
    | none => none
    | some guild_link =>
      match guild_link.nobrText with
      | none => none
      | some nb =>
        let guild_name := pyStrip nb
        match find_realm_link row with
        | none => none
        | some realm_link =>
          let realm_text := pyStrip realm_link.text
          if pyContainsChar realm_text '-' then
            let region := pyStrip (pySplitOnceBefore realm_text '-')
            let realm := pyStrip (pySplitOnceAfter realm_text '-')
            if pyUpper region == "EU" then
              some { name := guild_name, realm := realm, region := region,
                     url := guild_link.href.getD "" }
            else none
          else none

/-- `extract_guilds_from_page`: fold over all rows, appending each kept
record to the accumulator, exactly as the Python loop does. -/
def extract_guilds_from_page (soup : Page) : List Guild :=
  soup.rows.foldl
    (fun guilds row =>
      match parse_row row with
      | some g => guilds ++ [g]
      | none => guilds)
    []

/-- The claim's validity predicate for a row: not raising, a guild-name
anchor with a nested name node, a realm anchor whose text contains a
hyphen, and a region part that upper-cases to "EU". -/
def is_valid_eu_row (row : Row) : Bool :=
  !row.raises &&
  match find_guild_link row with
  | none => false
  | some gl =>
    gl.nobrText.isSome &&
    match find_realm_link row with
    | none => false
    | some rl =>
      let realm_text := pyStrip rl.text
      pyContainsChar realm_text '-' &&
      (pyUpper (pyStrip (pySplitOnceBefore realm_text '-')) == "EU")

/-! ## Termination Oracle (main.py `has_mythic_progress`,
main_cloudscraper.py `has_heroic_progress`) -/

/-- `has_mythic_progress`: no progress spans means stop; otherwise look at
the last span's `<b>` child and test for the substring "(M)". -/
def has_mythic_progress (soup : Page) : Bool :=
  let progress_spans := soup.progressSpans
  if progress_spans.isEmpty then false
  else
    match progress_spans.getLast? with
    | none => false
    | some last_span =>
      match last_span.bText with
      | some progress_text => pyContainsStr progress_text "(M)"
      | none => false

/-- `has_heroic_progress` (cloudscraper variant): no spans means stop;
otherwise test the last span's full text for the substring "(H)". -/
def has_heroic_progress (soup : Page) : Bool :=
  let progress_spans := soup.progressSpans
  if progress_spans.isEmpty then false
  else
    match progress_spans.getLast? with
    | none => false
    | some last_span => pyContainsStr last_span.text "(H)"

/-- Whether one progress span carries the mythic marker, as
`has_mythic_progress` reads a span: a `<b>` child whose text contains
"(M)". -/
def span_marker_mythic (sp : Span) : Bool :=
  match sp.bText with
  | some t => pyContainsStr t "(M)"
  | none => false

/-- Whether one progress span carries the heroic marker, as
`has_heroic_progress` reads a span: its full text contains "(H)". -/
def span_marker_heroic (sp : Span) : Bool :=
  pyContainsStr sp.text "(H)"

/-! ## Tier Crawler (main.py `scrape_tier_guilds`) and Checkpoint Store -/

/-- One value of the tier-progress store (`tier_progress[str(tier)]`):
the page offset of the last checkpointed page and the accumulated
record count at that point. -/
structure TPEntry where
  last_page : Int
  guilds_count : Nat
  deriving DecidableEq

/-- Why one run of the crawl loop stopped: the fetch for the current page
failed after retries, the termination oracle said stop, or the modelling
fuel ran out (never reached in any theorem below). -/
inductive StopReason where
  | fetchFailed
  | noMythic
  | outOfFuel
  deriving DecidableEq

/-- The observable outcome of one `scrape_tier_guilds` run: the returned
accumulated records, the tier-progress checkpoint writes it performed in
chronological order, and why the loop stopped. -/
structure CrawlResult where
  all_guilds : List Guild
  checkpoints : List TPEntry
  reason : StopReason
  deriving DecidableEq

/-- The `while True` loop of `scrape_tier_guilds`, over a fetch
environment `fetch : offset → Option Page` (`none` = failure after all
retries) and explicit fuel.  Per iteration: fetch the page (failure
breaks the loop, returning the accumulator); extract and append this
page's records; if the last guild of the page has no mythic progress,
break (no checkpoint); otherwise write the checkpoint
`{last_page := page, guilds_count := len(all_guilds)}` and continue at
`page + 1`. -/
def scrape_tier_guilds (fetch : Int → Option Page) :
    Nat → Int → List Guild → CrawlResult
  | 0, _, all_guilds => ⟨all_guilds, [], .outOfFuel⟩
  | fuel + 1, page, all_guilds =>
    match fetch page with
    | none => ⟨all_guilds, [], .fetchFailed⟩
    | some soup =>
      let guilds := extract_guilds_from_page soup
      let acc := all_guilds ++ guilds
      if has_mythic_progress soup then
        let rest := scrape_tier_guilds fetch fuel (page + 1) acc
        ⟨rest.all_guilds, ⟨page, acc.length⟩ :: rest.checkpoints, rest.reason⟩
      else ⟨acc, [], .noMythic⟩

/-! ## Orchestrator (main.py `main`, phase 1) -/

/-- One value of the per-tier record store (`all_guilds_data[str(tier)]`). -/
structure TierData where
  completed : Bool
  guilds : List Guild
  deriving DecidableEq

/-- The state main threads through phase 1: the two persisted stores and
the in-memory deduplication dict, each modelled as an insertion-ordered
association list (Python dict). -/
structure MainState where
  tier_progress : List (String × TPEntry)
  all_guilds_data : List (String × TierData)
  unique_guilds : List (String × Guild)
  deriving DecidableEq

/-- Python dict assignment `m[k] = v`: replace in place when the key is
present (keeping its position), append otherwise. -/
def dictInsert {β : Type} (m : List (String × β)) (k : String) (v : β) :
    List (String × β) :=
  if (List.lookup k m).isSome then
    m.map (fun kv => if kv.1 == k then (k, v) else kv)
  else m ++ [(k, v)]

/-- `key = f"{guild['name']}|{guild['realm']}"`, the Orchestrator's
deduplication key. -/
def guild_key (g : Guild) : String :=
  g.name ++ "|" ++ g.realm

/-- `for guild in guilds: unique_guilds[key] = guild` — the merge loop
main runs for every tier's record list (overwriting on duplicate keys). -/
def add_unique (m : List (String × Guild)) (gs : List Guild) :
    List (String × Guild) :=
  gs.foldl (fun m g => dictInsert m (guild_key g) g) m

/-- `tier_key = str(tier)`. -/
def tier_key (tier : Int) : String :=
  toString tier

/-- `start_page = tier_progress[tier_key].get('last_page', -1) + 1` when
the tier has a stored offset, else the sentinel `-1`. -/
def start_page_of (tier_progress : List (String × TPEntry)) (tier : Int) : Int :=
  match List.lookup (tier_key tier) tier_progress with
  | some e => e.last_page + 1
  | none => -1

/-- Replay the crawl's checkpoint writes onto the tier-progress store:
each write sets this tier's entry (load file, assign, save file). -/
def apply_checkpoints (tier : Int) (tp : List (String × TPEntry))
    (cps : List TPEntry) : List (String × TPEntry) :=
  cps.foldl (fun m e => dictInsert m (tier_key tier) e) tp

/-- The not-completed branch of main's per-tier loop body: crawl from the
resume offset, then store `{'completed': True, 'guilds': guilds}` for the
tier — unconditionally, whatever stopped the crawl — and merge the
returned records into `unique_guilds`. -/
def process_tier_scrape (fetch : Int → Int → Option Page) (fuel : Nat)
    (st : MainState) (tier : Int) : MainState :=
  let r := scrape_tier_guilds (fetch tier) fuel (start_page_of st.tier_progress tier) []
  { tier_progress := apply_checkpoints tier st.tier_progress r.checkpoints,
    all_guilds_data := dictInsert st.all_guilds_data (tier_key tier) ⟨true, r.all_guilds⟩,
    unique_guilds := add_unique st.unique_guilds r.all_guilds }

/-- Main's per-tier loop body: a tier already stored as completed is
loaded straight into `unique_guilds` and never re-crawled; otherwise run
the scrape branch. -/
def process_tier (fetch : Int → Int → Option Page) (fuel : Nat)
    (st : MainState) (tier : Int) : MainState :=
  match List.lookup (tier_key tier) st.all_guilds_data with
  | some td =>
    if td.completed then
      { st with unique_guilds := add_unique st.unique_guilds td.guilds }
    else process_tier_scrape fetch fuel st tier
  | none => process_tier_scrape fetch fuel st tier

/-- `START_TIER = 22`. -/
def START_TIER : Int := 22

/-- `END_TIER = 35`. -/
def END_TIER : Int := 35

/-- Python `range(a, stop, -1)` as a list. -/
def range_down (a stop : Int) : List Int :=
  (List.range (a - stop).toNat).map (fun i => a - (i : Int))

/-- The tier iteration order of main's phase 1:
`range(END_TIER, START_TIER - 1, -1)`. -/
def tier_range : List Int :=
  range_down END_TIER (START_TIER - 1)

/-- Phase 1 of `main` over an initial state whose stores were loaded from
disk (and whose `unique_guilds` dict starts empty): fold the per-tier
body over the tier order. -/
def main_phase1 (fetch : Int → Int → Option Page) (fuel : Nat)
    (st : MainState) : MainState :=
  tier_range.foldl (process_tier fetch fuel) st

/-- The state main starts phase 1 from: the two stores as loaded from
their files, `unique_guilds = {}`. -/
def init_state (tp : List (String × TPEntry)) (agd : List (String × TierData)) :
    MainState :=
  ⟨tp, agd, []⟩

/-! ## Language Filter (main.py `get_guild_language`,
`filter_finnish_guilds`) -/

/-- `BASE_URL`. -/
def BASE_URL : String := "https://www.wowprogress.com"

/-- A fetched guild detail page: the `get_text()` of its
`div class="language"` element when one exists. -/
structure DetailPage where
  language_div : Option String
  deriving DecidableEq

/-- `get_guild_language`: fetch the detail page at `BASE_URL + guild_url`;
`None` on fetch failure or a missing language div or a text without a
colon; otherwise the text after the first colon, stripped. -/
def get_guild_language (fetchd : String → Option DetailPage)
    (guild_url : String) : Option String :=
  match fetchd (BASE_URL ++ guild_url) with
  | none => none
  | some soup =>
    match soup.language_div with
    | none => none
    | some lang_text =>
      if pyContainsChar lang_text ':' then
        some (pyStrip (pySplitOnceAfter lang_text ':'))
      else none

/-- The final output record: the candidate with `url` dropped. -/
structure FilteredGuild where
  name : String
  realm : String
  region : String
  deriving DecidableEq

/-- `filter_finnish_guilds`: for each candidate in input order, classify
its language; keep it (dropping the url field) iff the language is
present and lower-cases to "finnish".  A failed classification is just
not a match — the loop continues with the next candidate. -/
def filter_finnish_guilds (fetchd : String → Option DetailPage)
    (guilds : List Guild) : List FilteredGuild :=
  guilds.foldl
    (fun finnish_guilds guild =>
      match get_guild_language fetchd guild.url with
      | some language =>
        if pyLower language == "finnish" then
          finnish_guilds ++ [⟨guild.name, guild.realm, guild.region⟩]
        else finnish_guilds
      | none => finnish_guilds)
    []

/-- Whether `filter_finnish_guilds` keeps a candidate, as a Boolean. -/
def is_finnish_match (fetchd : String → Option DetailPage) (g : Guild) : Bool :=
  match get_guild_language fetchd g.url with
  | some language => pyLower language == "finnish"
  | none => false

/-- The record `filter_finnish_guilds` emits for a kept candidate. -/
def drop_url (g : Guild) : FilteredGuild :=
  ⟨g.name, g.realm, g.region⟩

/-! ## Offline combine tool (combine_guilds.py `combine_guild_files`) -/

/-- `key = f"{guild['name']}-{guild['realm']}"` — the combine tool's
deduplication key (note: name and realm concatenated through a plain
hyphen, not a pair). -/
def combine_key (g : FilteredGuild) : String :=
  g.name ++ "-" ++ g.realm

/-- One step of the combine tool's dedup loop: add the record under its
key only when the key is not yet present (first occurrence wins). -/
def insert_unique (m : List (String × FilteredGuild)) (g : FilteredGuild) :
    List (String × FilteredGuild) :=
  let key := combine_key g
  if (List.lookup key m).isSome then m else m ++ [(key, g)]

/-- The comparator of `combined_guilds.sort(key=lambda x: x['name'].lower())`:
lexicographic comparison (by code point) of the lower-cased names. -/
def lexLe : List Char → List Char → Bool
  | [], _ => true
  | _ :: _, [] => false
  | a :: as, b :: bs =>
    if a < b then true
    else if b < a then false
    else lexLe as bs

/-- `a` sorts no later than `b` under the combine tool's sort key. -/
def name_lower_le (a b : FilteredGuild) : Bool :=
  lexLe (pyLower a.name).data (pyLower b.name).data

/-- What `combine_guild_files` produces and prints: the combined sorted
list and the four reported counts. -/
structure CombineResult where
  combined_guilds : List FilteredGuild
  count_first : Nat
  count_second : Nat
  count_unique : Nat
  duplicates_removed : Nat
  deriving DecidableEq

/-- `combine_guild_files` over the two parsed input files: dedup
`guilds + guilds_mythic` by `combine_key` (first occurrence wins), take
the dict's values, sort them by lower-cased name (a stable sort, as
Python's is), and report the counts, the duplicate count being
`len(guilds) + len(guilds_mythic) - len(combined_guilds)`. -/
def combine_guild_files (guilds guilds_mythic : List FilteredGuild) :
    CombineResult :=
  let unique_guilds := (guilds ++ guilds_mythic).foldl insert_unique []
  let combined_guilds :=
    (unique_guilds.map Prod.snd).insertionSort
      (fun a b => name_lower_le a b = true)
  ⟨combined_guilds, guilds.length, guilds_mythic.length,
   combined_guilds.length,
   guilds.length + guilds_mythic.length - combined_guilds.length⟩

/-! ## Helper lemmas: Row Extractor -/

/-- The extraction fold over rows is the accumulator followed by the
filterMap of the per-row body. -/
theorem extract_foldl_eq (rows : List Row) (acc : List Guild) :
    rows.foldl
      (fun guilds row =>
        match parse_row row with
        | some g => guilds ++ [g]
        | none => guilds)
      acc
    = acc ++ rows.filterMap parse_row := by
  induction rows generalizing acc with
  | nil => simp
  | cons r rs ih =>
    simp only [List.foldl_cons, List.filterMap_cons]
    cases h : parse_row r with
    | none => rw [ih]
    | some g => rw [ih]; simp

/-- A row produces a record exactly when it satisfies the validity
predicate of the claim. -/
theorem parse_row_isSome (row : Row) :
    (parse_row row).isSome = is_valid_eu_row row := by
  cases hr : row.raises with
  | true => simp [parse_row, is_valid_eu_row, hr]
  | false =>
    cases hg : find_guild_link row with
    | none => simp [parse_row, is_valid_eu_row, hr, hg]
    | some gl =>
      cases hn : gl.nobrText with
      | none => simp [parse_row, is_valid_eu_row, hr, hg, hn]
      | some nb =>
        cases hrl : find_realm_link row with
        | none => simp [parse_row, is_valid_eu_row, hr, hg, hn, hrl]
        | some rl =>
          by_cases hh : pyContainsChar (pyStrip rl.text) '-'
          · by_cases he :
              pyUpper (pyStrip (pySplitOnceBefore (pyStrip rl.text) '-')) == "EU"
            · simp [parse_row, is_valid_eu_row, hr, hg, hn, hrl, hh, he]
            · simp [parse_row, is_valid_eu_row, hr, hg, hn, hrl, hh, he]
          · simp [parse_row, is_valid_eu_row, hr, hg, hn, hrl, hh]

/-- Counting kept records equals counting valid rows. -/
theorem length_filterMap_parse (rows : List Row) :
    (rows.filterMap parse_row).length = (rows.filter is_valid_eu_row).length := by
  induction rows with
  | nil => rfl
  | cons r rs ih =>
    rw [List.filterMap_cons, List.filter_cons]
    cases h : parse_row r with
    | none =>
      have hv : is_valid_eu_row r = false := by rw [← parse_row_isSome, h]; rfl
      simp [hv, ih]
    | some g =>
      have hv : is_valid_eu_row r = true := by rw [← parse_row_isSome, h]; rfl
      simp [hv, ih]

/-- C3: the Row Extractor emits, in document row order, exactly the
records of the rows that have a guild-name anchor with a nested name
node and a realm anchor whose stripped text contains a hyphen with a
region part that case-insensitively equals "EU"; all other rows
(including rows that raise a parse error) are skipped without aborting
the page, so the output is the filterMap of the per-row parser over the
rows in order and its length equals the number of valid EU rows. -/
theorem C3_row_extractor (p : Page) :
    extract_guilds_from_page p = p.rows.filterMap parse_row ∧
    (∀ row : Row, (parse_row row).isSome = is_valid_eu_row row) ∧
    (extract_guilds_from_page p).length = (p.rows.filter is_valid_eu_row).length := by
  have he : extract_guilds_from_page p = p.rows.filterMap parse_row := by
    unfold extract_guilds_from_page
    rw [extract_foldl_eq]
    simp
  exact ⟨he, parse_row_isSome, by rw [he]; exact length_filterMap_parse p.rows⟩

/-- C4: with no progress spans both termination oracles say "do not
continue"; otherwise each oracle's answer is a function of the LAST
progress span alone — "continue" exactly when that last span carries the
difficulty marker — whatever the earlier spans on the page contain. -/
theorem C4_termination_oracle (p : Page) :
    (p.progressSpans = [] →
      has_mythic_progress p = false ∧ has_heroic_progress p = false) ∧
    (∀ front sp, p.progressSpans = front ++ [sp] →
      has_mythic_progress p = span_marker_mythic sp ∧
      has_heroic_progress p = span_marker_heroic sp) := by
  constructor
  · intro h
    simp [has_mythic_progress, has_heroic_progress, h]
  · intro front sp h
    have hlast : (front ++ [sp]).getLast? = some sp := List.getLast?_concat front
    constructor
    · simp [has_mythic_progress, h, hlast, span_marker_mythic]
    · simp [has_heroic_progress, h, hlast, span_marker_heroic]

/-! ## Helper lemmas: language extraction -/

/-- Splitting at the first occurrence of `c` in `l ++ c :: r` when `c`
does not occur in `l`. -/
theorem splitOnceChars_append (c : Char) (l r : List Char) (h : c ∉ l) :
    splitOnceChars c (l ++ c :: r) = (l, r) := by
  induction l with
  | nil => simp [splitOnceChars]
  | cons x xs ih =>
    have hx : ¬x = c := fun hxc => h (hxc ▸ List.mem_cons_self x xs)
    have hxs : c ∉ xs := fun hm => h (List.mem_cons_of_mem x hm)
    simp only [List.cons_append, splitOnceChars, if_neg hx, List.append_eq, ih hxs]

/-- A list with `c` in it makes the containment check true. -/
theorem charsContain_of_append (c : Char) (l r : List Char) :
    (l ++ c :: r).contains c = true := by
  simp

/-- Stripping ignores a leading blank. -/
theorem pyStrip_space_cons (l : List Char) :
    pyStrip ⟨' ' :: l⟩ = pyStrip ⟨l⟩ := by
  simp [pyStrip, List.dropWhile]

/-- C7: on a reachable detail page whose language text contains a colon
the classifier returns the text after the FIRST colon, stripped — in
particular `"<label>: <value>"` and `"<label>:<value>"` both yield the
stripped value — and it returns `none` when the fetch fails, the
language field is missing, or the text has no colon. -/
theorem C7_language_classifier (fetchd : String → Option DetailPage)
    (url label value : String) :
    (fetchd (BASE_URL ++ url) = none → get_guild_language fetchd url = none) ∧
    (fetchd (BASE_URL ++ url) = some ⟨none⟩ → get_guild_language fetchd url = none) ∧
    (∀ t, fetchd (BASE_URL ++ url) = some ⟨some t⟩ →
      pyContainsChar t ':' = false → get_guild_language fetchd url = none) ∧
    (∀ t, fetchd (BASE_URL ++ url) = some ⟨some t⟩ →
      pyContainsChar t ':' = true →
      get_guild_language fetchd url = some (pyStrip (pySplitOnceAfter t ':'))) ∧
    (pyContainsChar label ':' = false →
      (fetchd (BASE_URL ++ url) = some ⟨some (label ++ ":" ++ value)⟩ →
        get_guild_language fetchd url = some (pyStrip value)) ∧
      (fetchd (BASE_URL ++ url) = some ⟨some (label ++ ": " ++ value)⟩ →
        get_guild_language fetchd url = some (pyStrip value))) := by
  refine ⟨fun h => by simp [get_guild_language, h],
          fun h => by simp [get_guild_language, h],
          fun t ht hc => by simp [get_guild_language, ht, hc],
          fun t ht hc => by simp [get_guild_language, ht, hc],
          fun hl => ⟨fun h => ?_, fun h => ?_⟩⟩
  · have hnotmem : ':' ∉ label.data := by
      intro hm
      rw [show pyContainsChar label ':' = label.data.contains ':' from rfl] at hl
      simp [hm] at hl
    have hdata : (label ++ ":" ++ value).data = label.data ++ ':' :: value.data := by
      rw [String.data_append, String.data_append]
      simp [show (":" : String).data = [':'] from rfl]
    have hc : pyContainsChar (label ++ ":" ++ value) ':' = true := by
      rw [show pyContainsChar (label ++ ":" ++ value) ':'
            = (label ++ ":" ++ value).data.contains ':' from rfl, hdata]
      exact charsContain_of_append ':' label.data value.data
    have hafter : pySplitOnceAfter (label ++ ":" ++ value) ':' = value := by
      show (⟨(splitOnceChars ':' (label ++ ":" ++ value).data).2⟩ : String) = value
      rw [hdata, splitOnceChars_append ':' label.data value.data hnotmem]
    simp [get_guild_language, h, hc, hafter]
  · have hnotmem : ':' ∉ label.data := by
      intro hm
      rw [show pyContainsChar label ':' = label.data.contains ':' from rfl] at hl
      simp [hm] at hl
    have hdata : (label ++ ": " ++ value).data = label.data ++ ':' :: (' ' :: value.data) := by
      rw [String.data_append, String.data_append]
      simp [show (": " : String).data = [':', ' '] from rfl]
    have hc : pyContainsChar (label ++ ": " ++ value) ':' = true := by
      rw [show pyContainsChar (label ++ ": " ++ value) ':'
            = (label ++ ": " ++ value).data.contains ':' from rfl, hdata]
      exact charsContain_of_append ':' label.data (' ' :: value.data)
    have hafter : pySplitOnceAfter (label ++ ": " ++ value) ':' = ⟨' ' :: value.data⟩ := by
      show (⟨(splitOnceChars ':' (label ++ ": " ++ value).data).2⟩ : String)
        = ⟨' ' :: value.data⟩
      rw [hdata, splitOnceChars_append ':' label.data (' ' :: value.data) hnotmem]
    rw [show get_guild_language fetchd url
          = (if pyContainsChar (label ++ ": " ++ value) ':' then
              some (pyStrip (pySplitOnceAfter (label ++ ": " ++ value) ':'))
            else none) from by simp [get_guild_language, h], if_pos (by rw [hc]),
        hafter, pyStrip_space_cons]

/-! ## Helper lemmas: Language Filter -/

/-- The filter fold over candidates is the accumulator followed by the
kept candidates, in order, with the url dropped. -/
theorem filter_foldl_eq (fetchd : String → Option DetailPage)
    (gs : List Guild) (acc : List FilteredGuild) :
    gs.foldl
      (fun finnish_guilds guild =>
        match get_guild_language fetchd guild.url with
        | some language =>
          if pyLower language == "finnish" then
            finnish_guilds ++ [⟨guild.name, guild.realm, guild.region⟩]
          else finnish_guilds
        | none => finnish_guilds)
      acc
    = acc ++ (gs.filter (is_finnish_match fetchd)).map drop_url := by
  induction gs generalizing acc with
  | nil => simp
  | cons g gs ih =>
    simp only [List.foldl_cons, List.filter_cons]
    cases h : get_guild_language fetchd g.url with
    | none =>
      have hm : is_finnish_match fetchd g = false := by
        simp [is_finnish_match, h]
      rw [ih]
      simp [hm]
    | some language =>
      by_cases hf : pyLower language == "finnish"
      · have hm : is_finnish_match fetchd g = true := by
          simp only [is_finnish_match, h]
          exact hf
        rw [ih]
        simp [hm, hf, drop_url]
      · have hm : is_finnish_match fetchd g = false := by
          simp only [is_finnish_match, h]
          exact Bool.of_not_eq_true hf
        rw [ih]
        simp [hm, hf]

/-- C8: the Language Filter keeps exactly the candidates whose classified
language is present and case-insensitively equals "Finnish", in input
order, each kept record being the candidate's name/realm/region with the
url dropped; a candidate whose classification comes back absent is
simply not kept and the pass continues over the rest of the list. -/
theorem C8_language_filter (fetchd : String → Option DetailPage)
    (guilds : List Guild) :
    filter_finnish_guilds fetchd guilds
      = (guilds.filter (is_finnish_match fetchd)).map drop_url ∧
    (∀ g : Guild, is_finnish_match fetchd g = true ↔
      ∃ l, get_guild_language fetchd g.url = some l ∧ pyLower l = pyLower "Finnish") ∧
    (∀ fg : FilteredGuild, fg ∈ filter_finnish_guilds fetchd guilds ↔
      ∃ g, g ∈ guilds ∧ is_finnish_match fetchd g = true ∧ fg = drop_url g) := by
  have heq : filter_finnish_guilds fetchd guilds
      = (guilds.filter (is_finnish_match fetchd)).map drop_url := by
    unfold filter_finnish_guilds
    rw [filter_foldl_eq]
    simp
  refine ⟨heq, fun g => ?_, fun fg => ?_⟩
  · have hlow : pyLower "Finnish" = "finnish" := by decide
    rw [hlow]
    unfold is_finnish_match
    cases h : get_guild_language fetchd g.url with
    | none => simp
    | some l => simp
  · rw [heq]
    simp only [List.mem_map, List.mem_filter]
    constructor
    · rintro ⟨g, ⟨hmem, hmatch⟩, hdrop⟩
      exact ⟨g, hmem, hmatch, hdrop.symm⟩
    · rintro ⟨g, hmem, hmatch, hdrop⟩
      exact ⟨g, ⟨hmem, hmatch⟩, hdrop.symm⟩

/-! ## Helper lemmas: Tier Crawler -/

/-- Within one crawl run the checkpoint writes carry strictly increasing
page offsets, all at least the starting page, and each written offset is
one whose fetch succeeded and whose page passed the termination oracle. -/
theorem scrape_checkpoints_inv (fetch : Int → Option Page) :
    ∀ (fuel : Nat) (page : Int) (acc : List Guild),
      List.Chain' (fun a b => a.last_page < b.last_page)
        (scrape_tier_guilds fetch fuel page acc).checkpoints ∧
      ∀ e ∈ (scrape_tier_guilds fetch fuel page acc).checkpoints,
        page ≤ e.last_page ∧
        ∃ pg, fetch e.last_page = some pg ∧ has_mythic_progress pg = true := by
  intro fuel
  induction fuel with
  | zero =>
    intro page acc
    simp [scrape_tier_guilds]
  | succ fuel ih =>
    intro page acc
    cases hf : fetch page with
    | none => simp [scrape_tier_guilds, hf]
    | some soup =>
      by_cases hm : has_mythic_progress soup
      · obtain ⟨ihc, ihe⟩ := ih (page + 1) (acc ++ extract_guilds_from_page soup)
        simp only [scrape_tier_guilds, hf, hm, if_true]
        constructor
        · rw [List.chain'_cons']
          refine ⟨fun y hy => ?_, ihc⟩
          have hmem := List.mem_of_mem_head? hy
          have := (ihe y hmem).1
          show page < y.last_page
          omega
        · intro e he
          rcases List.mem_cons.mp he with he | he
          · subst he
            exact ⟨le_refl page, soup, hf, hm⟩
          · obtain ⟨h1, h2⟩ := ihe e he
            exact ⟨by omega, h2⟩
      · simp [scrape_tier_guilds, hf, hm]

/-- C9: over one crawl run the stored `last_page` offset only increases
(the checkpoint writes of the run form a strictly increasing chain of
offsets, all at least the start offset), and an entry is written only
for an offset whose page fetch succeeded (and passed the oracle) — never
for a failed fetch. -/
theorem C9_checkpoint_monotone (fetch : Int → Option Page) (fuel : Nat)
    (start : Int) :
    List.Chain' (fun a b => a.last_page < b.last_page)
      (scrape_tier_guilds fetch fuel start []).checkpoints ∧
    ∀ e ∈ (scrape_tier_guilds fetch fuel start []).checkpoints,
      start ≤ e.last_page ∧
      ∃ pg, fetch e.last_page = some pg ∧ has_mythic_progress pg = true :=
  scrape_checkpoints_inv fetch fuel start []

/-- Threading a non-empty accumulator through the crawl loop only
prepends it to the returned records and shifts the checkpointed counts. -/
theorem scrape_acc_eq (fetch : Int → Option Page) :
    ∀ (fuel : Nat) (page : Int) (acc : List Guild),
      scrape_tier_guilds fetch fuel page acc
        = ⟨acc ++ (scrape_tier_guilds fetch fuel page []).all_guilds,
           (scrape_tier_guilds fetch fuel page []).checkpoints.map
             (fun e => ⟨e.last_page, acc.length + e.guilds_count⟩),
           (scrape_tier_guilds fetch fuel page []).reason⟩ := by
  intro fuel
  induction fuel with
  | zero =>
    intro page acc
    simp [scrape_tier_guilds]
  | succ fuel ih =>
    intro page acc
    cases hf : fetch page with
    | none => simp [scrape_tier_guilds, hf]
    | some soup =>
      by_cases hm : has_mythic_progress soup
      · simp only [scrape_tier_guilds, hf, hm, if_true]
        rw [ih (page + 1) (acc ++ extract_guilds_from_page soup),
            ih (page + 1) ([] ++ extract_guilds_from_page soup)]
        simp [List.map_map, Function.comp_def, Nat.add_assoc]
      · simp [scrape_tier_guilds, hf, hm]

/-! ## Helper lemmas: Python dicts as association lists -/

/-- `(some a).or o = some a`. -/
theorem option_some_or {α : Type} (a : α) (o : Option α) :
    (some a).or o = some a := rfl

/-- `getLast?` of a cons, in `Option.or` form. -/
theorem getLast?_cons_or {α : Type} (a : α) (l : List α) :
    (a :: l).getLast? = l.getLast?.or (some a) := by
  cases l with
  | nil => rfl
  | cons b bs =>
    rw [List.getLast?_cons_cons]
    obtain ⟨x, hx⟩ := Option.isSome_iff_exists.mp
      (List.getLast?_isSome.mpr (List.cons_ne_nil b bs))
    rw [hx]
    rfl

/-- `getLast?` of an append, in `Option.or` form. -/
theorem getLast?_append_or {α : Type} (l₁ l₂ : List α) :
    (l₁ ++ l₂).getLast? = l₂.getLast?.or l₁.getLast? := by
  induction l₁ with
  | nil => simp
  | cons a l₁ ih =>
    rw [List.cons_append, getLast?_cons_or, ih, getLast?_cons_or, Option.or_assoc]

/-- `a == b` is false for distinct strings. -/
theorem str_beq_false {a b : String} (h : ¬a = b) : (a == b) = false := by
  simp [h]

/-- Looking a key up after appending a single binding. -/
theorem lookup_append_single {β : Type} (m : List (String × β)) (k k' : String)
    (v : β) :
    List.lookup k' (m ++ [(k, v)])
      = (List.lookup k' m).or (if k' = k then some v else none) := by
  induction m with
  | nil =>
    by_cases h : k' = k
    · simp [List.lookup, h, Option.or]
    · simp [List.lookup, str_beq_false h, h, Option.or]
  | cons kv m ih =>
    obtain ⟨k0, v0⟩ := kv
    rw [List.cons_append]
    by_cases h0 : k' = k0
    · subst h0
      simp [List.lookup, Option.or]
    · simp only [List.lookup, str_beq_false h0]
      exact ih

/-- Looking a key up after the in-place replacement that Python dict
assignment performs on an existing key. -/
theorem lookup_map_replace {β : Type} (m : List (String × β)) (k k' : String)
    (v : β) :
    List.lookup k' (m.map (fun kv => if kv.1 == k then (k, v) else kv))
      = if k = k' then (List.lookup k m).map (fun _ => v)
        else List.lookup k' m := by
  induction m with
  | nil =>
    by_cases h : k = k'
    · simp [List.lookup, h]
    · simp [List.lookup, h]
  | cons kv m ih =>
    obtain ⟨k0, v0⟩ := kv
    by_cases h0 : k0 = k
    · subst h0
      simp only [List.map_cons, beq_self_eq_true]
      rw [if_pos True.intro]
      by_cases h1 : k0 = k'
      · subst h1
        simp [List.lookup, ih]
      · have hb : (k' == k0) = false := str_beq_false (fun h => h1 h.symm)
        simp only [List.lookup, hb]
        rw [ih]
        simp [h1]
    · have hbk : (k0 == k) = false := str_beq_false h0
      have hkk0 : ¬k = k0 := fun h => h0 h.symm
      simp only [List.map_cons, hbk]
      rw [if_neg Bool.false_ne_true]
      by_cases h1 : k' = k0
      · subst h1
        simp [List.lookup, str_beq_false hkk0, show ¬k = k' from hkk0]
      · have hb : (k' == k0) = false := str_beq_false h1
        simp only [List.lookup, hb, str_beq_false hkk0]
        exact ih

/-- Python dict assignment `m[k] = v` followed by a lookup. -/
theorem lookup_dictInsert {β : Type} (m : List (String × β)) (k k' : String)
    (v : β) :
    List.lookup k' (dictInsert m k v)
      = if k = k' then some v else List.lookup k' m := by
  unfold dictInsert
  by_cases hs : (List.lookup k m).isSome
  · rw [if_pos hs, lookup_map_replace]
    by_cases h1 : k = k'
    · subst h1
      obtain ⟨w, hw⟩ := Option.isSome_iff_exists.mp hs
      simp [hw]
    · simp [h1]
  · rw [if_neg hs, lookup_append_single]
    by_cases h1 : k = k'
    · subst h1
      rw [Option.not_isSome_iff_eq_none.mp hs]
      simp
    · have hne : ¬k' = k := fun h => h1 h.symm
      simp [h1, hne]

/-- Looking a key up after main's per-tier merge loop: the LAST record
with that key in the merged list wins, else the previous binding. -/
theorem lookup_add_unique (m : List (String × Guild)) (gs : List Guild)
    (k : String) :
    List.lookup k (add_unique m gs)
      = ((gs.filter (fun g => guild_key g == k)).getLast?).or (List.lookup k m) := by
  induction gs generalizing m with
  | nil => simp [add_unique]
  | cons g gs ih =>
    rw [show add_unique m (g :: gs) = add_unique (dictInsert m (guild_key g) g) gs
          from rfl,
        ih, List.filter_cons]
    by_cases hg : guild_key g = k
    · rw [if_pos (by simp [hg]), getLast?_cons_or, Option.or_assoc,
          lookup_dictInsert, if_pos hg, option_some_or]
    · rw [if_neg (by simp [hg]), lookup_dictInsert, if_neg hg]

/-- Applying checkpoint writes for one tier leaves every other key of
the tier-progress store unchanged. -/
theorem lookup_apply_checkpoints_ne (tier : Int)
    (tp : List (String × TPEntry)) (cps : List TPEntry) (k : String)
    (hne : ¬tier_key tier = k) :
    List.lookup k (apply_checkpoints tier tp cps) = List.lookup k tp := by
  induction cps generalizing tp with
  | nil => rfl
  | cons e es ih =>
    rw [show apply_checkpoints tier tp (e :: es)
          = apply_checkpoints tier (dictInsert tp (tier_key tier) e) es from rfl,
        ih, lookup_dictInsert, if_neg hne]

/-- Applying the run's checkpoint writes to this tier's own entry: the
last write wins, else the prior entry. -/
theorem lookup_apply_checkpoints_self (tier : Int)
    (tp : List (String × TPEntry)) (cps : List TPEntry) :
    List.lookup (tier_key tier) (apply_checkpoints tier tp cps)
      = cps.getLast?.or (List.lookup (tier_key tier) tp) := by
  induction cps generalizing tp with
  | nil => rfl
  | cons e es ih =>
    rw [show apply_checkpoints tier tp (e :: es)
          = apply_checkpoints tier (dictInsert tp (tier_key tier) e) es from rfl,
        ih, lookup_dictInsert, if_pos rfl, getLast?_cons_or, Option.or_assoc,
        option_some_or]

/-- On a tier with no stored record and no stored offset, the per-tier
body takes the scrape branch from the top sentinel `-1`. -/
theorem process_tier_fresh (fetch : Int → Int → Option Page) (fuel : Nat)
    (st : MainState) (tier : Int)
    (hagd : List.lookup (tier_key tier) st.all_guilds_data = none)
    (htp : List.lookup (tier_key tier) st.tier_progress = none) :
    process_tier fetch fuel st tier
      = { tier_progress :=
            apply_checkpoints tier st.tier_progress
              (scrape_tier_guilds (fetch tier) fuel (-1) []).checkpoints,
          all_guilds_data :=
            dictInsert st.all_guilds_data (tier_key tier)
              ⟨true, (scrape_tier_guilds (fetch tier) fuel (-1) []).all_guilds⟩,
          unique_guilds :=
            add_unique st.unique_guilds
              (scrape_tier_guilds (fetch tier) fuel (-1) []).all_guilds } := by
  unfold process_tier process_tier_scrape start_page_of
  rw [hagd, htp]

/-- Folding main's per-tier body over a list of fresh tiers (no stored
records, pairwise distinct keys): the final deduplicated dict maps each
key to the LAST record carrying it across the concatenation of the
tiers' scraped record lists in processing order. -/
theorem phase_fold_unique (fetch : Int → Int → Option Page) (fuel : Nat) :
    ∀ (ts : List Int) (st : MainState) (k : String),
      (∀ t ∈ ts, List.lookup (tier_key t) st.all_guilds_data = none ∧
                 List.lookup (tier_key t) st.tier_progress = none) →
      (ts.map tier_key).Nodup →
      List.lookup k (List.foldl (process_tier fetch fuel) st ts).unique_guilds
        = ((ts.flatMap
              (fun t => (scrape_tier_guilds (fetch t) fuel (-1) []).all_guilds)).filter
            (fun g => guild_key g == k)).getLast?.or
            (List.lookup k st.unique_guilds) := by
  intro ts
  induction ts with
  | nil =>
    intro st k _ _
    simp
  | cons t ts ih =>
    intro st k h hnd
    have ht := h t (List.mem_cons_self t ts)
    rw [List.foldl_cons, process_tier_fresh fetch fuel st t ht.1 ht.2]
    have hnd2 : (∀ x ∈ ts, ¬tier_key x = tier_key t) ∧
        (List.map tier_key ts).Nodup := by simpa using hnd
    have hnd' := hnd2.2
    have hfresh : ∀ t' ∈ ts,
        List.lookup (tier_key t')
          (dictInsert st.all_guilds_data (tier_key t)
            ⟨true, (scrape_tier_guilds (fetch t) fuel (-1) []).all_guilds⟩) = none ∧
        List.lookup (tier_key t')
          (apply_checkpoints t st.tier_progress
            (scrape_tier_guilds (fetch t) fuel (-1) []).checkpoints) = none := by
      intro t' ht'
      have hne : ¬tier_key t = tier_key t' := fun hk => hnd2.1 t' ht' hk.symm
      constructor
      · rw [lookup_dictInsert, if_neg hne]
        exact (h t' (List.mem_cons_of_mem t ht')).1
      · rw [lookup_apply_checkpoints_ne t _ _ _ hne]
        exact (h t' (List.mem_cons_of_mem t ht')).2
    rw [ih _ k hfresh hnd']
    rw [show (List.lookup k
          (add_unique st.unique_guilds
            (scrape_tier_guilds (fetch t) fuel (-1) []).all_guilds))
        = _ from lookup_add_unique st.unique_guilds _ k]
    rw [List.flatMap_cons, List.filter_append, getLast?_append_or, Option.or_assoc]

/-- C5: main's phase 1 walks the tiers in descending order from
`END_TIER = 35` down to `START_TIER = 22`, both inclusive, and in the
cross-tier merge into the deduplicated-by-key dict the LAST record seen
for a key in processing order wins — since tiers are processed
newest-first, an older tier's duplicate record silently overwrites a
newer tier's record for the same `name|realm` key. -/
theorem C5_orchestrator (fetch : Int → Int → Option Page) (fuel : Nat)
    (k : String) :
    tier_range = [35, 34, 33, 32, 31, 30, 29, 28, 27, 26, 25, 24, 23, 22] ∧
    List.lookup k (main_phase1 fetch fuel (init_state [] [])).unique_guilds
      = ((tier_range.flatMap
            (fun t => (scrape_tier_guilds (fetch t) fuel (-1) []).all_guilds)).filter
          (fun g => guild_key g == k)).getLast? := by
  have htr : tier_range = [35, 34, 33, 32, 31, 30, 29, 28, 27, 26, 25, 24, 23, 22] := by
    decide
  refine ⟨htr, ?_⟩
  show List.lookup k
      (List.foldl (process_tier fetch fuel) (init_state [] []) tier_range).unique_guilds
    = _
  rw [phase_fold_unique fetch fuel tier_range (init_state [] []) k
        (by intro t _; exact ⟨rfl, rfl⟩) (by rw [htr]; decide)]
  simp [init_state, List.lookup]

/-! ## Concrete fixtures -/

/-- A valid EU listing row for the guild "Pojat" on EU-Kazzak. -/
def demo_row_a : Row :=
  ⟨[⟨["guild"], some "Pojat", "Pojat", some "/guild/eu/kazzak/pojat"⟩,
    ⟨["realm"], none, "EU-Kazzak", none⟩], false⟩

/-- A valid EU listing row for the guild "Hurmos" on EU-Stormreaver. -/
def demo_row_b : Row :=
  ⟨[⟨["guild"], some "Hurmos", "Hurmos", some "/guild/eu/stormreaver/hurmos"⟩,
    ⟨["realm"], none, "EU-Stormreaver", none⟩], false⟩

/-- A progress span carrying the mythic marker. -/
def span_m : Span := ⟨some "8/8 (M)", "8/8 (M)"⟩

/-- A progress span without the mythic marker. -/
def span_nom : Span := ⟨some "8/8 (H)", "8/8 (H)"⟩

/-- A page whose last (only) guild has mythic progress. -/
def page_a : Page := ⟨[demo_row_a], [span_m]⟩

/-- A page whose last (only) guild has no mythic progress. -/
def page_b : Page := ⟨[demo_row_b], [span_nom]⟩

/-- A fetch environment in which every page fetch fails. -/
def fetch_fail_all : Int → Int → Option Page := fun _ _ => none

/-- A fetch environment in which every tier's first page is available
(one EU guild, no mythic marker, so a crawl would terminate cleanly). -/
def fetch_retry : Int → Int → Option Page :=
  fun _ page => if page = -1 then some page_b else none

/-! ## C1: what happens to a tier after a fetch failure -/

/-- On a tier not already stored as completed, the per-tier body takes
the scrape branch. -/
theorem process_tier_not_completed (fetch : Int → Int → Option Page)
    (fuel : Nat) (st : MainState) (tier : Int)
    (hnc : ∀ td : TierData,
      List.lookup (tier_key tier) st.all_guilds_data = some td →
      td.completed = false) :
    process_tier fetch fuel st tier = process_tier_scrape fetch fuel st tier := by
  unfold process_tier
  cases hl : List.lookup (tier_key tier) st.all_guilds_data with
  | none => rfl
  | some td =>
    simp [hnc td hl]

/-- C1 counterexample: with every fetch failing, the crawl of tier 35
aborts on a fetch failure, yet main's phase 1 stores the tier as
`completed = True` with its (empty) partial record list; a second
invocation over the saved stores — against an environment in which the
page is now available and holds a guild — still reports the tier
completed with no records, because completed tiers are never re-crawled.
This refutes "the tier is NOT marked completed in the persisted per-tier
store, so a later invocation can resume that tier". -/
theorem C1_counterexample :
    (scrape_tier_guilds (fetch_fail_all 35) 3 (-1) []).reason
        = StopReason.fetchFailed ∧
    List.lookup (tier_key 35)
        (main_phase1 fetch_fail_all 3 (init_state [] [])).all_guilds_data
      = some ⟨true, []⟩ ∧
    List.lookup (tier_key 35)
        (main_phase1 fetch_retry 3
          (init_state
            (main_phase1 fetch_fail_all 3 (init_state [] [])).tier_progress
            (main_phase1 fetch_fail_all 3 (init_state [] [])).all_guilds_data)
          ).all_guilds_data
      = some ⟨true, []⟩ ∧
    (scrape_tier_guilds (fetch_retry 35) 3 (-1) []).all_guilds ≠ [] := by
  decide

/-- C1 (amended): when a page fetch fails after all retries, the Tier
Crawler does stop the tier early and return the records accumulated so
far, and the Orchestrator proceeds to the next tier — but main then
stores the tier as completed with exactly those partial records, so a
later invocation that sees the completed entry loads it as-is and never
re-crawls (never resumes) the tier. -/
theorem C1_abort_marks_completed (fetch : Int → Int → Option Page)
    (fuel : Nat) (st : MainState) (tier : Int)
    (hnc : ∀ td : TierData,
      List.lookup (tier_key tier) st.all_guilds_data = some td →
      td.completed = false)
    (_hfail : (scrape_tier_guilds (fetch tier) fuel
        (start_page_of st.tier_progress tier) []).reason
        = StopReason.fetchFailed) :
    List.lookup (tier_key tier) (process_tier fetch fuel st tier).all_guilds_data
      = some ⟨true, (scrape_tier_guilds (fetch tier) fuel
          (start_page_of st.tier_progress tier) []).all_guilds⟩ ∧
    (∀ rest : List Int,
      List.foldl (process_tier fetch fuel) st (tier :: rest)
        = List.foldl (process_tier fetch fuel) (process_tier fetch fuel st tier) rest) ∧
    (∀ (fetch2 : Int → Int → Option Page) (fuel2 : Nat) (st2 : MainState)
        (td : TierData),
      List.lookup (tier_key tier) st2.all_guilds_data = some td →
      td.completed = true →
      process_tier fetch2 fuel2 st2 tier
        = { st2 with unique_guilds := add_unique st2.unique_guilds td.guilds }) := by
  refine ⟨?_, fun rest => rfl, fun fetch2 fuel2 st2 td hl hc => ?_⟩
  · rw [process_tier_not_completed fetch fuel st tier hnc]
    show List.lookup (tier_key tier)
        (dictInsert st.all_guilds_data (tier_key tier) ⟨true, _⟩) = _
    rw [lookup_dictInsert, if_pos rfl]
  · unfold process_tier
    rw [hl]
    simp [hc]

/-- C1 witness: the amended theorem applied to the all-fetches-fail
environment at tier 35 from empty stores. -/
theorem C1_abort_witness :
    List.lookup (tier_key 35)
        (process_tier fetch_fail_all 3 (init_state [] []) 35).all_guilds_data
      = some ⟨true, (scrape_tier_guilds (fetch_fail_all 35) 3
          (start_page_of (init_state [] []).tier_progress 35) []).all_guilds⟩ :=
  (C1_abort_marks_completed fetch_fail_all 3 (init_state [] []) 35
    (fun td h => Option.noConfusion h) (by decide)).1

/-! ## C2: resumption after a failure -/

/-- The fetch at offset `o` succeeds and the fetched page passes the
mythic termination oracle. -/
def succeeds_with_mythic (fetch : Int → Option Page) (o : Int) : Prop :=
  ∃ pg, fetch o = some pg ∧ has_mythic_progress pg = true

/-- The concatenated records of the `k` consecutive pages starting at
offset `start` (a failed fetch contributing nothing). -/
def pages_guilds (fetch : Int → Option Page) (start : Int) : Nat → List Guild
  | 0 => []
  | k + 1 =>
    (match fetch start with
     | some pg => extract_guilds_from_page pg
     | none => []) ++ pages_guilds fetch (start + 1) k

/-- The `k` consecutive offsets starting at `start`. -/
def offsets_from (start : Int) : Nat → List Int
  | 0 => []
  | k + 1 => start :: offsets_from (start + 1) k

/-- Projection of `scrape_acc_eq`: the returned records. -/
theorem scrape_acc_all (fetch : Int → Option Page) (fuel : Nat) (page : Int)
    (acc : List Guild) :
    (scrape_tier_guilds fetch fuel page acc).all_guilds
      = acc ++ (scrape_tier_guilds fetch fuel page []).all_guilds := by
  rw [scrape_acc_eq]

/-- Projection of `scrape_acc_eq`: the stop reason. -/
theorem scrape_acc_reason (fetch : Int → Option Page) (fuel : Nat) (page : Int)
    (acc : List Guild) :
    (scrape_tier_guilds fetch fuel page acc).reason
      = (scrape_tier_guilds fetch fuel page []).reason := by
  rw [scrape_acc_eq]

/-- Projection of `scrape_acc_eq`: the checkpointed offsets. -/
theorem scrape_acc_offsets (fetch : Int → Option Page) (fuel : Nat) (page : Int)
    (acc : List Guild) :
    (scrape_tier_guilds fetch fuel page acc).checkpoints.map (fun e => e.last_page)
      = (scrape_tier_guilds fetch fuel page []).checkpoints.map
          (fun e => e.last_page) := by
  rw [scrape_acc_eq]
  simp [List.map_map, Function.comp_def]

/-- Crawl decomposition: while every page in `[start, start + k)` fetches
successfully and passes the oracle, a run with `k` extra units of fuel
walks exactly those `k` pages — collecting their records and writing
their offsets — and then behaves as a run started at `start + k`. -/
theorem scrape_split (fetch : Int → Option Page) :
    ∀ (k fuel : Nat) (start : Int),
      (∀ o : Int, start ≤ o → o < start + (k : Int) → succeeds_with_mythic fetch o) →
      ((scrape_tier_guilds fetch (k + fuel) start []).all_guilds
        = pages_guilds fetch start k
            ++ (scrape_tier_guilds fetch fuel (start + (k : Int)) []).all_guilds) ∧
      ((scrape_tier_guilds fetch (k + fuel) start []).reason
        = (scrape_tier_guilds fetch fuel (start + (k : Int)) []).reason) ∧
      ((scrape_tier_guilds fetch (k + fuel) start []).checkpoints.map
          (fun e => e.last_page)
        = offsets_from start k
            ++ (scrape_tier_guilds fetch fuel (start + (k : Int)) []).checkpoints.map
                (fun e => e.last_page)) := by
  intro k
  induction k with
  | zero =>
    intro fuel start _
    simp [pages_guilds, offsets_from]
  | succ k ih =>
    intro fuel start h
    obtain ⟨pg, hpg, hm⟩ := h start (le_refl start) (by omega)
    have hfuel : k + 1 + fuel = (k + fuel) + 1 := by omega
    have hcast : start + ((k + 1 : Nat) : Int) = (start + 1) + (k : Int) := by
      push_cast
      ring
    have hsub : ∀ o : Int, start + 1 ≤ o → o < (start + 1) + (k : Int) →
        succeeds_with_mythic fetch o := by
      intro o h1 h2
      exact h o (by omega) (by omega)
    obtain ⟨iha, ihr, ihc⟩ := ih fuel (start + 1) hsub
    rw [hfuel]
    constructor
    · show (scrape_tier_guilds fetch ((k + fuel) + 1) start []).all_guilds = _
      simp only [scrape_tier_guilds, hpg, hm, if_true]
      rw [scrape_acc_all, iha, hcast]
      simp [pages_guilds, hpg]
    constructor
    · show (scrape_tier_guilds fetch ((k + fuel) + 1) start []).reason = _
      simp only [scrape_tier_guilds, hpg, hm, if_true]
      rw [scrape_acc_reason, ihr, hcast]
    · show (scrape_tier_guilds fetch ((k + fuel) + 1) start []).checkpoints.map
          (fun e => e.last_page) = _
      simp only [scrape_tier_guilds, hpg, hm, if_true]
      rw [List.map_cons, scrape_acc_offsets, ihc, hcast]
      simp [offsets_from]

/-- Two fetch environments that agree on `[start, start + k)` produce the
same page records over that window. -/
theorem pages_guilds_congr (f g : Int → Option Page) :
    ∀ (k : Nat) (start : Int),
      (∀ o : Int, start ≤ o → o < start + (k : Int) → f o = g o) →
      pages_guilds f start k = pages_guilds g start k := by
  intro k
  induction k with
  | zero => intro start _; rfl
  | succ k ih =>
    intro start h
    unfold pages_guilds
    rw [h start (le_refl start) (by omega),
        ih (start + 1) (fun o h1 h2 => h o (by omega) (by omega))]

/-- The last of the `k` offsets from `start` is `start + k - 1`. -/
theorem offsets_from_getLast? (k : Nat) :
    ∀ (start : Int), 1 ≤ k →
      (offsets_from start k).getLast? = some (start + (k : Int) - 1) := by
  induction k with
  | zero => intro start h; omega
  | succ k ih =>
    intro start _
    by_cases h0 : k = 0
    · subst h0
      show (offsets_from start 1).getLast? = some (start + (1 : Int) - 1)
      norm_num [offsets_from]
    · rw [show offsets_from start (k + 1) = start :: offsets_from (start + 1) k
            from rfl,
          getLast?_cons_or, ih (start + 1) (by omega), option_some_or]
      congr 1
      push_cast
      ring

/-- C2 (amended): fix the page contents `fetch` and a failure offset
`start + k` with every earlier page in the window fetching successfully
and passing the oracle.  The first run — same pages, but the fetch at
`start + k` failing — returns exactly the records of pages
`start .. start+k-1` and stops with a fetch failure; its last checkpoint
makes the stored-offset-plus-one resume point exactly the failed offset
`start + k`; and the aborted run's records followed by the records of
the resumed run (started at `start + k` against the working fetch) are
exactly the records of one uninterrupted run from `start`.  (The claim
as stated — that the resumed run alone reproduces the uninterrupted
run's final record set — is refuted by `C2_counterexample`: the resumed
run returns only the pages from the failed offset on, and main
overwrites the tier's stored record list with it.) -/
theorem C2_resumption (fetch : Int → Option Page) (tier : Int)
    (tp : List (String × TPEntry)) (k fuel aFuel : Nat) (start : Int)
    (h : ∀ o : Int, start ≤ o → o < start + (k : Int) → succeeds_with_mythic fetch o) :
    (scrape_tier_guilds (fun o => if o = start + (k : Int) then none else fetch o)
        (k + (aFuel + 1)) start []).all_guilds = pages_guilds fetch start k ∧
    (scrape_tier_guilds (fun o => if o = start + (k : Int) then none else fetch o)
        (k + (aFuel + 1)) start []).reason = StopReason.fetchFailed ∧
    (1 ≤ k →
      start_page_of
        (apply_checkpoints tier tp
          (scrape_tier_guilds
            (fun o => if o = start + (k : Int) then none else fetch o)
            (k + (aFuel + 1)) start []).checkpoints) tier
        = start + (k : Int)) ∧
    (scrape_tier_guilds (fun o => if o = start + (k : Int) then none else fetch o)
        (k + (aFuel + 1)) start []).all_guilds
      ++ (scrape_tier_guilds fetch fuel (start + (k : Int)) []).all_guilds
      = (scrape_tier_guilds fetch (k + fuel) start []).all_guilds := by
  have hagree : ∀ o : Int, start ≤ o → o < start + (k : Int) →
      (fun o => if o = start + (k : Int) then none else fetch o) o = fetch o := by
    intro o h1 h2
    exact if_neg (by omega)
  have h1 : ∀ o : Int, start ≤ o → o < start + (k : Int) →
      succeeds_with_mythic
        (fun o => if o = start + (k : Int) then none else fetch o) o := by
    intro o ha hb
    obtain ⟨pg, hpg, hm⟩ := h o ha hb
    exact ⟨pg, by rw [hagree o ha hb]; exact hpg, hm⟩
  obtain ⟨ha1, hr1, hc1⟩ :=
    scrape_split (fun o => if o = start + (k : Int) then none else fetch o)
      k (aFuel + 1) start h1
  have hstep : scrape_tier_guilds
      (fun o => if o = start + (k : Int) then none else fetch o)
      (aFuel + 1) (start + (k : Int)) [] = ⟨[], [], StopReason.fetchFailed⟩ := by
    simp [scrape_tier_guilds]
  rw [hstep] at ha1 hr1 hc1
  have hall : (scrape_tier_guilds
      (fun o => if o = start + (k : Int) then none else fetch o)
      (k + (aFuel + 1)) start []).all_guilds = pages_guilds fetch start k := by
    rw [ha1]
    show pages_guilds _ start k ++ [] = _
    rw [List.append_nil, pages_guilds_congr _ fetch k start hagree]
  refine ⟨hall, by rw [hr1], ?_, ?_⟩
  · intro hk
    have hcps : (scrape_tier_guilds
        (fun o => if o = start + (k : Int) then none else fetch o)
        (k + (aFuel + 1)) start []).checkpoints.map (fun e => e.last_page)
        = offsets_from start k := by
      rw [hc1]
      show offsets_from start k ++ [] = _
      rw [List.append_nil]
    have hg : ((scrape_tier_guilds
        (fun o => if o = start + (k : Int) then none else fetch o)
        (k + (aFuel + 1)) start []).checkpoints.map
          (fun e => e.last_page)).getLast?
        = some (start + (k : Int) - 1) := by
      rw [hcps]
      exact offsets_from_getLast? k start hk
    rw [List.getLast?_map] at hg
    obtain ⟨e, he, hep⟩ := Option.map_eq_some'.mp hg
    unfold start_page_of
    rw [lookup_apply_checkpoints_self, he, option_some_or]
    show e.last_page + 1 = start + (k : Int)
    omega
  · rw [hall]
    exact (scrape_split fetch k fuel start h).1.symm

/-- The two-page fixture environment: page `-1` holds "Pojat" with the
mythic marker, page `0` holds "Hurmos" without it, nothing else exists. -/
def fetch_w : Int → Option Page :=
  fun o => if o = -1 then some page_a else if o = 0 then some page_b else none

/-- The same pages, with the fetch at offset `0` failing. -/
def fetch_w_fail : Int → Option Page :=
  fun o => if o = 0 then none else fetch_w o

/-- C2 counterexample: over the fixed two-page input, the first run fails
at offset 0 after checkpointing `last_page = -1`, so the resume offset is
`savedOffset + 1 = 0`, the failed offset.  The resumed run returns only
page 0's record ("Hurmos"); the uninterrupted run from the top returns
both records.  The resumed run's final accumulated record set is NOT the
uninterrupted run's set — "Pojat", collected before the failure, is
missing from it (and main overwrites the tier's stored list with the
resumed run's return value). -/
theorem C2_counterexample :
    (scrape_tier_guilds fetch_w_fail 5 (-1) []).reason = StopReason.fetchFailed ∧
    (scrape_tier_guilds fetch_w_fail 5 (-1) []).checkpoints.map
        (fun e => e.last_page) = [-1] ∧
    start_page_of
        (apply_checkpoints 35 []
          (scrape_tier_guilds fetch_w_fail 5 (-1) []).checkpoints) 35 = 0 ∧
    (scrape_tier_guilds fetch_w 5 0 []).all_guilds
      ≠ (scrape_tier_guilds fetch_w 5 (-1) []).all_guilds ∧
    (⟨"Pojat", "Kazzak", "EU", "/guild/eu/kazzak/pojat"⟩ : Guild)
      ∈ (scrape_tier_guilds fetch_w 5 (-1) []).all_guilds ∧
    (⟨"Pojat", "Kazzak", "EU", "/guild/eu/kazzak/pojat"⟩ : Guild)
      ∉ (scrape_tier_guilds fetch_w 5 0 []).all_guilds := by
  decide

/-- C2 witness: the amended decomposition applied to the two-page
fixture with the failure at offset `-1 + 1 = 0`. -/
theorem C2_resumption_witness :
    (scrape_tier_guilds
        (fun o => if o = (-1 : Int) + ((1 : Nat) : Int) then none else fetch_w o)
        (1 + (3 + 1)) (-1) []).all_guilds
      ++ (scrape_tier_guilds fetch_w 5 ((-1 : Int) + ((1 : Nat) : Int)) []).all_guilds
      = (scrape_tier_guilds fetch_w (1 + 5) (-1) []).all_guilds :=
  (C2_resumption fetch_w 35 [] 1 5 3 (-1)
    (fun o h1 h2 => by
      have ho : o = -1 := by omega
      subst ho
      exact ⟨page_a, by decide, by decide⟩)).2.2.2

/-! ## Helper lemmas: offline combine tool -/

/-- Transitivity of the lexicographic comparator. -/
theorem lexLe_trans (xs : List Char) : ∀ (ys zs : List Char),
    lexLe xs ys = true → lexLe ys zs = true → lexLe xs zs = true := by
  induction xs with
  | nil => intro ys zs _ _; rfl
  | cons a as ih =>
    intro ys zs h1 h2
    cases ys with
    | nil => simp [lexLe] at h1
    | cons b bs =>
      cases zs with
      | nil => simp [lexLe] at h2
      | cons c cs =>
        simp only [lexLe] at h1 h2 ⊢
        by_cases hab : a < b
        · by_cases hbc : b < c
          · rw [if_pos (lt_trans hab hbc)]
          · by_cases hcb : c < b
            · rw [if_neg hbc, if_pos hcb] at h2
              exact absurd h2 (by simp)
            · have hbceq : b = c := le_antisymm (not_lt.mp hcb) (not_lt.mp hbc)
              rw [if_pos (hbceq ▸ hab)]
        · by_cases hba : b < a
          · rw [if_neg hab, if_pos hba] at h1
            exact absurd h1 (by simp)
          · have habeq : a = b := le_antisymm (not_lt.mp hba) (not_lt.mp hab)
            subst habeq
            rw [if_neg hab, if_neg hba] at h1
            by_cases hac : a < c
            · rw [if_pos hac]
            · by_cases hca : c < a
              · rw [if_neg hac, if_pos hca] at h2
                exact absurd h2 (by simp)
              · rw [if_neg hac, if_neg hca] at h2 ⊢
                exact ih bs cs h1 h2

/-- Totality of the lexicographic comparator. -/
theorem lexLe_total (xs : List Char) : ∀ (ys : List Char),
    lexLe xs ys = true ∨ lexLe ys xs = true := by
  induction xs with
  | nil => intro ys; left; rfl
  | cons a as ih =>
    intro ys
    cases ys with
    | nil => right; rfl
    | cons b bs =>
      simp only [lexLe]
      by_cases hab : a < b
      · left
        rw [if_pos hab]
      · by_cases hba : b < a
        · right
          rw [if_pos hba]
        · rw [if_neg hab, if_neg hba, if_neg hba, if_neg hab]
          exact ih bs

/-- A key outside an association list's key set looks up to `none`. -/
theorem lookup_eq_none_of_not_mem {β : Type} (l : List (String × β)) (k : String)
    (h : k ∉ l.map Prod.fst) : List.lookup k l = none := by
  induction l with
  | nil => rfl
  | cons kv l ih =>
    obtain ⟨k0, v0⟩ := kv
    have h0 : ¬k = k0 := fun he => h (by simp [he])
    simp only [List.lookup, str_beq_false h0]
    exact ih (fun hm => h (by simp; right; simpa using hm))

/-- A present key looks up to something. -/
theorem lookup_isSome_of_mem {β : Type} (l : List (String × β)) (k : String)
    (h : k ∈ l.map Prod.fst) : (List.lookup k l).isSome = true := by
  induction l with
  | nil => simp at h
  | cons kv l ih =>
    obtain ⟨k0, v0⟩ := kv
    by_cases h0 : k = k0
    · subst h0
      simp [List.lookup]
    · simp only [List.lookup, str_beq_false h0]
      apply ih
      simp only [List.map_cons, List.mem_cons] at h
      rcases h with h | h
      · exact absurd h h0
      · exact h

/-- With pairwise distinct keys, a member's key looks up to its value. -/
theorem mem_lookup_of_nodup {β : Type} (l : List (String × β)) (kv : String × β)
    (hnd : (l.map Prod.fst).Nodup) (hm : kv ∈ l) :
    List.lookup kv.1 l = some kv.2 := by
  induction l with
  | nil => simp at hm
  | cons kv0 l ih =>
    obtain ⟨k0, v0⟩ := kv0
    rw [List.map_cons] at hnd
    obtain ⟨hnot, hnd'⟩ := List.nodup_cons.mp hnd
    rcases List.mem_cons.mp hm with rfl | hm'
    · simp [List.lookup]
    · have hk : ¬kv.1 = k0 := by
        intro he
        exact hnot (List.mem_map.mpr ⟨kv, hm', he⟩)
      simp only [List.lookup, str_beq_false hk]
      exact ih hnd' hm'

/-- With pairwise distinct keys, at most one entry carries any key, and
exactly one iff the key is present. -/
theorem filter_key_length_of_nodup {β : Type} (l : List (String × β)) (k : String)
    (hnd : (l.map Prod.fst).Nodup) :
    (l.filter (fun kv => kv.1 == k)).length
      = if (List.lookup k l).isSome then 1 else 0 := by
  induction l with
  | nil => simp
  | cons kv l ih =>
    obtain ⟨k0, v0⟩ := kv
    rw [List.map_cons] at hnd
    obtain ⟨hnot, hnd'⟩ := List.nodup_cons.mp hnd
    rw [List.filter_cons]
    by_cases h0 : k0 = k
    · subst h0
      have hnone : List.lookup k0 l = none :=
        lookup_eq_none_of_not_mem l k0 hnot
      rw [if_pos (by simp)]
      simp [List.length_cons, ih hnd', List.lookup, hnone]
    · rw [if_neg (by simp [h0]), ih hnd']
      have hb : (k == k0) = false := str_beq_false (fun he => h0 he.symm)
      simp only [List.lookup, hb]

/-- The combine tool's dedup fold keeps every entry keyed by its own
record's key and keeps the key set duplicate-free. -/
theorem insert_unique_foldl_inv (ws : List FilteredGuild) :
    ∀ acc : List (String × FilteredGuild),
      (∀ kv ∈ acc, kv.1 = combine_key kv.2) →
      (acc.map Prod.fst).Nodup →
      (∀ kv ∈ ws.foldl insert_unique acc, kv.1 = combine_key kv.2) ∧
      ((ws.foldl insert_unique acc).map Prod.fst).Nodup := by
  induction ws with
  | nil =>
    intro acc h1 h2
    exact ⟨h1, h2⟩
  | cons g ws ih =>
    intro acc h1 h2
    rw [List.foldl_cons]
    apply ih
    · unfold insert_unique
      by_cases hs : (List.lookup (combine_key g) acc).isSome
      · rw [if_pos hs]
        exact h1
      · rw [if_neg hs]
        intro kv hkv
        rcases List.mem_append.mp hkv with h | h
        · exact h1 kv h
        · rw [List.mem_singleton.mp h]
    · unfold insert_unique
      by_cases hs : (List.lookup (combine_key g) acc).isSome
      · rw [if_pos hs]
        exact h2
      · rw [if_neg hs]
        have hnm : combine_key g ∉ acc.map Prod.fst :=
          fun hm => hs (lookup_isSome_of_mem acc (combine_key g) hm)
        rw [List.map_append]
        simp [List.nodup_append, h2, hnm]

/-- The combine tool's dedup fold is first-occurrence-wins: a key looks
up to the prior binding when it had one, else to the first record in the
remaining input that carries the key. -/
theorem insert_unique_foldl_lookup (ws : List FilteredGuild) :
    ∀ (acc : List (String × FilteredGuild)) (k : String),
      List.lookup k (ws.foldl insert_unique acc)
        = (List.lookup k acc).or (ws.find? (fun g => combine_key g == k)) := by
  induction ws with
  | nil =>
    intro acc k
    simp
  | cons g ws ih =>
    intro acc k
    rw [List.foldl_cons, ih]
    by_cases hk : combine_key g = k
    · subst hk
      have hp : (combine_key g == combine_key g) = true := by simp
      simp only [List.find?_cons, hp]
      by_cases hs : (List.lookup (combine_key g) acc).isSome
      · obtain ⟨w, hw⟩ := Option.isSome_iff_exists.mp hs
        rw [show insert_unique acc g = acc from by unfold insert_unique; rw [if_pos hs],
            hw, option_some_or, option_some_or]
      · rw [show insert_unique acc g = acc ++ [(combine_key g, g)] from by
              unfold insert_unique; rw [if_neg hs],
            lookup_append_single, if_pos rfl, Option.or_assoc, option_some_or]
    · have hp : (combine_key g == k) = false := str_beq_false hk
      simp only [List.find?_cons, hp]
      by_cases hs : (List.lookup (combine_key g) acc).isSome
      · rw [show insert_unique acc g = acc from by unfold insert_unique; rw [if_pos hs]]
      · rw [show insert_unique acc g = acc ++ [(combine_key g, g)] from by
              unfold insert_unique; rw [if_neg hs],
            lookup_append_single, if_neg (fun h => hk h.symm), Option.or_none]

/-- C6: the offline combine tool emits exactly one record per key that
occurs in the inputs — the FIRST record with that key in
`guilds ++ guilds_mythic`, so the earlier file wins a collision — sorts
the output by lower-cased name, and reports
`duplicates_removed = inputCount1 + inputCount2 - outputCount`. -/
theorem C6_combine_tool (g1 g2 : List FilteredGuild) :
    (∀ g ∈ (combine_guild_files g1 g2).combined_guilds,
      (g1 ++ g2).find? (fun x => combine_key x == combine_key g) = some g) ∧
    (∀ k : String,
      ((combine_guild_files g1 g2).combined_guilds.filter
          (fun x => combine_key x == k)).length
        = if (g1 ++ g2).any (fun x => combine_key x == k) then 1 else 0) ∧
    List.Sorted (fun a b => name_lower_le a b = true)
      (combine_guild_files g1 g2).combined_guilds ∧
    (combine_guild_files g1 g2).count_first = g1.length ∧
    (combine_guild_files g1 g2).count_second = g2.length ∧
    (combine_guild_files g1 g2).count_unique
      = (combine_guild_files g1 g2).combined_guilds.length ∧
    (combine_guild_files g1 g2).duplicates_removed
      = (combine_guild_files g1 g2).count_first
        + (combine_guild_files g1 g2).count_second
        - (combine_guild_files g1 g2).count_unique := by
  have hcg : (combine_guild_files g1 g2).combined_guilds
      = List.insertionSort (fun a b => name_lower_le a b = true)
          (((g1 ++ g2).foldl insert_unique []).map Prod.snd) := rfl
  have hinv := insert_unique_foldl_inv (g1 ++ g2) [] (by simp) (by simp)
  have hperm : ((combine_guild_files g1 g2).combined_guilds).Perm
      (((g1 ++ g2).foldl insert_unique []).map Prod.snd) := by
    rw [hcg]
    exact List.perm_insertionSort _ _
  have hlook : ∀ k : String, List.lookup k ((g1 ++ g2).foldl insert_unique [])
      = (g1 ++ g2).find? (fun g => combine_key g == k) := by
    intro k
    rw [insert_unique_foldl_lookup]
    simp
  refine ⟨?_, ?_, ?_, rfl, rfl, rfl, rfl⟩
  · intro g hg
    have hgm : g ∈ ((g1 ++ g2).foldl insert_unique []).map Prod.snd :=
      hperm.mem_iff.mp hg
    obtain ⟨kv, hkv, hsnd⟩ := List.mem_map.mp hgm
    have hkey := hinv.1 kv hkv
    have hl := mem_lookup_of_nodup _ kv hinv.2 hkv
    rw [hkey, hsnd] at hl
    rw [← hlook (combine_key g)]
    exact hl
  · intro k
    have h1 : ((combine_guild_files g1 g2).combined_guilds.filter
        (fun x => combine_key x == k)).length
        = ((((g1 ++ g2).foldl insert_unique []).map Prod.snd).filter
            (fun x => combine_key x == k)).length :=
      (hperm.filter _).length_eq
    have h2 : List.filter ((fun x => combine_key x == k) ∘ Prod.snd)
        ((g1 ++ g2).foldl insert_unique [])
        = List.filter (fun kv => kv.1 == k) ((g1 ++ g2).foldl insert_unique []) :=
      List.filter_congr (fun kv hkv => by
        show (combine_key kv.2 == k) = (kv.1 == k)
        rw [hinv.1 kv hkv])
    have hiff : ((g1 ++ g2).find? (fun x => combine_key x == k)).isSome
        = (g1 ++ g2).any (fun x => combine_key x == k) := by
      cases hfs : (g1 ++ g2).find? (fun x => combine_key x == k) with
      | some x =>
        have hx := List.find?_some hfs
        have hmem := List.mem_of_find?_eq_some hfs
        simp only [Option.isSome_some]
        symm
        rw [List.any_eq_true]
        exact ⟨x, hmem, hx⟩
      | none =>
        have hall := List.find?_eq_none.mp hfs
        simp only [Option.isSome_none]
        symm
        rw [List.any_eq_false]
        intro x hx
        exact Bool.not_eq_true _ ▸ hall x hx
    rw [h1, List.filter_map, List.length_map, h2,
        filter_key_length_of_nodup _ k hinv.2, hlook k, hiff]
  · rw [hcg]
    haveI hT : IsTrans FilteredGuild (fun a b => name_lower_le a b = true) :=
      ⟨fun a b c h1 h2 => lexLe_trans _ _ _ h1 h2⟩
    haveI hO : IsTotal FilteredGuild (fun a b => name_lower_le a b = true) :=
      ⟨fun a b => lexLe_total _ _⟩
    exact List.sorted_insertionSort _ _

/-- Two records with distinct (name, realm) identities whose
name-hyphen-realm concatenations coincide. -/
def key_collision_a : FilteredGuild := ⟨"A-B", "C", "EU"⟩

/-- See `key_collision_a`. -/
def key_collision_b : FilteredGuild := ⟨"A", "B-C", "EU"⟩

/-- C10: the combine tool's dedup key is the single string
`name ++ "-" ++ realm`, so the records ("A-B", "C") and ("A", "B-C") —
distinct (name, realm) identities — share the key "A-B-C" and the tool
emits only one output record (the first), counting the other as a
duplicate. -/
theorem C10_concatenated_key :
    combine_key key_collision_a = combine_key key_collision_b ∧
    (key_collision_a.name, key_collision_a.realm)
      ≠ (key_collision_b.name, key_collision_b.realm) ∧
    (combine_guild_files [key_collision_a] [key_collision_b]).combined_guilds
      = [key_collision_a] ∧
    (combine_guild_files [key_collision_a] [key_collision_b]).duplicates_removed
      = 1 := by
  decide
